import Mathlib

/-!
# A verified model of `ParseOracle.py`

This file gives a shallow embedding of the card-organizing script
`ParseOracle.py` and proves the specification's claims about it.

The script reads a JSON array of card records and, for each record, derives
three classification strings (color folder, super-type folder, sub-type
folder), sanitizes path segments, and writes the record back out as
pretty-printed JSON (`json.dump(card, out_f, indent=4)`).

Embedding conventions:
* Python strings are modelled as Lean `String` / `List Char`; Python string
  comparison is code-point lexicographic, modelled by `lexLe`.
* JSON values are the inductive `Json` (numbers restricted to integers;
  the input records of interest carry no floats in the modelled fragment).
* Fallible Python operations (a `TypeError` on a wrongly-typed field, an
  `IndexError` on a list index) are modelled with `Option`: `none` means the
  Python code would raise at that point.
* `json.dump(…, indent=4)` is modelled by `pyJsonDump`, an exact rendering of
  CPython's serializer on this fragment, including `ensure_ascii` escaping
  (`\uXXXX`, lowercase hex, surrogate pairs).  `json.loads` is modelled by
  `pyJsonLoads`.
-/

/-! ## Basic character utilities -/

/-- JSON insignificant whitespace, as accepted by Python's `json.loads`. -/
def wsp (c : Char) : Bool :=
  c.toNat = 32 || c.toNat = 10 || c.toNat = 9 || c.toNat = 13

/-- ASCII decimal digit test. -/
def digitQ (c : Char) : Bool :=
  48 ≤ c.toNat && c.toNat ≤ 57

/-- Drop leading JSON whitespace. -/
def dropWs : List Char → List Char
  | [] => []
  | c :: r => if wsp c then dropWs r else c :: r

/-- The decimal digit character for `d < 10`. -/
def digitCh (d : Nat) : Char := Char.ofNat (48 + d)

/-- Decimal digit characters of `n`, most significant first: the embedding of
CPython's `int.__repr__` for nonnegative integers. -/
def decChars (n : Nat) : List Char :=
  if n < 10 then [digitCh n] else decChars (n / 10) ++ [digitCh (n % 10)]
termination_by n
decreasing_by omega

/-- Decimal `repr` of a Python `int`: optional minus sign, then digits. -/
def intChars (i : Int) : List Char :=
  if i < 0 then '-' :: decChars i.natAbs else decChars i.natAbs

/-! ## The sanitizer (`sanitize_name`, lines 5–7)

`re.sub(r'[\\/*?:"<>|]', "", name)` removes every character matching the
nine-character class and keeps everything else.  On a character class with an
empty replacement this is exactly a filter. -/

/-- Membership in the regex character class `[\\/*?:"<>|]` of line 7. -/
def illegalCh (c : Char) : Bool :=
  c = '\\' || c = '/' || c = '*' || c = '?' || c = ':' ||
  c = '"' || c = '<' || c = '>' || c = '|'

/-- The sanitizer `sanitize_name` on the character-list level. -/
def sanitize (s : List Char) : List Char :=
  s.filter (fun c => !illegalCh c)

/-- The sanitizer `sanitize_name` on strings. -/
def sanitize_name (s : String) : String :=
  String.mk (sanitize s.data)

/-! ## Python string comparison and `sorted`

Python compares strings lexicographically by code point; `sorted` returns the
unique `≤`-sorted permutation.  We model the order by the Boolean `lexLe`
and `sorted` by `List.insertionSort` over it (any correct sort produces the
same list, so the choice of algorithm is immaterial). -/

/-- Code-point lexicographic `≤` on character lists (Python's `str` order). -/
def lexLe : List Char → List Char → Bool
  | [], _ => true
  | _ :: _, [] => false
  | a :: as, b :: bs =>
    if a.toNat < b.toNat then true
    else if a.toNat = b.toNat then lexLe as bs
    else false

/-- Python's `≤` on strings, as a proposition. -/
def pyLe (a b : String) : Prop := lexLe a.data b.data = true

instance : DecidableRel pyLe := fun a b => by
  unfold pyLe; infer_instance

instance : IsTotal String pyLe where
  total a b := by
    show lexLe a.data b.data = true ∨ lexLe b.data a.data = true
    generalize a.data = x
    generalize b.data = y
    induction x generalizing y with
    | nil => left; rfl
    | cons c cs ih =>
      cases y with
      | nil => right; rfl
      | cons d ds =>
        rcases Nat.lt_trichotomy c.toNat d.toNat with h | h | h
        · left; simp [lexLe, h]
        · rcases ih ds with h2 | h2
          · left; simp [lexLe, h, h2]
          · right; simp [lexLe, h.symm, h2]
        · right; simp [lexLe, h]

instance : IsTrans String pyLe where
  trans a b c hab hbc := by
    show lexLe a.data c.data = true
    revert hab hbc
    show lexLe a.data b.data = true → lexLe b.data c.data = true →
      lexLe a.data c.data = true
    generalize a.data = x
    generalize b.data = y
    generalize c.data = z
    intro h1 h2
    induction x generalizing y z with
    | nil => rfl
    | cons u us ih =>
      cases y with
      | nil => simp [lexLe] at h1
      | cons v vs =>
        cases z with
        | nil => simp [lexLe] at h2
        | cons w ws =>
          simp only [lexLe] at h1 h2 ⊢
          by_cases huv : u.toNat < v.toNat <;>
            by_cases hvw : v.toNat < w.toNat <;>
              by_cases huv2 : u.toNat = v.toNat <;>
                by_cases hvw2 : v.toNat = w.toNat <;>
                  simp_all <;>
                    first
                    | omega
                    | exact ih _ _ h1 h2

/-- Python's `sorted` on a list of strings. -/
def pySorted (l : List String) : List String := List.insertionSort pyLe l

/-- Python's `sep.join(l)` for a non-empty-separator join. -/
def joinSep (sep : String) : List String → String
  | [] => ""
  | [s] => s
  | s :: rest => s ++ sep ++ joinSep sep rest

/-- Python's `"".join(l)`. -/
def joinAll : List String → String
  | [] => ""
  | s :: rest => s ++ joinAll rest

/-! ## Substring containment and `str.split(" — ")`

`" — " in type_line` is Python substring containment; `type_line.split(" — ")`
splits on every non-overlapping occurrence, left to right.  The separator is
the fixed three-character string space, em-dash (U+2014), space. -/

/-- Test whether the second list is a leading segment of the first. -/
def startsWithL : List Char → List Char → Bool
  | _, [] => true
  | [], _ :: _ => false
  | c :: cs, d :: ds => if c = d then startsWithL cs ds else false

/-- Python's `pat in s` substring test. -/
def containsSub : List Char → List Char → Bool
  | [], pat => startsWithL [] pat
  | s@(_ :: r), pat => startsWithL s pat || containsSub r pat

/-- The separator `" — "` of line 36, as characters. -/
def dashSep : List Char := [' ', '—', ' ']

/-- Helper `headSplice c parts` prepends `c` to the first part (Python's split never
produces an empty list of parts, so the `[]` arm is unreachable). -/
def headSplice (c : Char) : List (List Char) → List (List Char)
  | [] => [[c]]
  | p :: ps => (c :: p) :: ps

/-- Python's `s.split(" — ")`: split on every non-overlapping occurrence of the
separator, scanning left to right. -/
def splitDash : List Char → List (List Char)
  | c1 :: c2 :: c3 :: r =>
    if c1 = ' ' ∧ c2 = '—' ∧ c3 = ' ' then [] :: splitDash r
    else headSplice c1 (splitDash (c2 :: c3 :: r))
  | [c1, c2] => headSplice c1 (splitDash [c2])
  | [c] => [[c]]
  | [] => [[]]

/-- Spec-side reading: everything after the first occurrence of the separator
(`[]` when the separator does not occur). -/
def afterFirstSep : List Char → List Char
  | c1 :: c2 :: c3 :: r =>
    if c1 = ' ' ∧ c2 = '—' ∧ c3 = ' ' then r else afterFirstSep (c2 :: c3 :: r)
  | _ => []

/-- Spec-side reading: the text up to (excluding) the first occurrence of the
separator (the whole list when the separator does not occur). -/
def beforeSep : List Char → List Char
  | c1 :: c2 :: c3 :: r =>
    if c1 = ' ' ∧ c2 = '—' ∧ c3 = ' ' then [] else c1 :: beforeSep (c2 :: c3 :: r)
  | s => s

/-! ## JSON values and record field access

`Json` is the value domain of `json.load` on the modelled fragment (numbers
restricted to Python `int`; objects keep their key/value pairs in insertion
order, which is the order `json.dump` writes them back). -/

inductive Json where
  | null
  | bool (b : Bool)
  | num (n : Int)
  | str (s : String)
  | arr (xs : List Json)
  | obj (kvs : List (String × Json))

/-- Field lookup on a record.  `none` models the `TypeError`/`AttributeError`
Python raises when the record is not a dict; `some none` models an absent key;
`some (some v)` a present one. -/
def dictGet (card : Json) (k : String) : Option (Option Json) :=
  match card with
  | .obj kvs => some (kvs.lookup k)
  | _ => none

/-- Python's `'k' in card` for a dict (only evaluated after a successful `card.get`,
so the non-dict arm is unreachable in the modelled paths). -/
def hasKey (card : Json) (k : String) : Bool :=
  match card with
  | .obj kvs => (kvs.lookup k).isSome
  | _ => false

/-- Extract a Python `list[str]` value. -/
def strListOf : Json → Option (List String)
  | .arr xs => xs.mapM (fun v => match v with | .str s => some s | _ => none)
  | _ => none

/-! ## The classifier (`organize_scryfall_data`, lines 18–41) -/

/-- Line 21: `card.get('colors', [])`, expecting a list of strings.
`none` models a record on which the Python expression `sorted`/`join` chain
would raise (non-dict record, or a `colors` value that is not a string list). -/
def colorsListOf (card : Json) : Option (List String) :=
  match dictGet card "colors" with
  | none => none
  | some none => some []
  | some (some v) => strListOf v

/-- Lines 22–23: the flattened, set-deduplicated face colors.
`list(set(...))` produces the distinct letters in an unspecified order; the
order is normalized away by `sorted` on line 25, so the model picks
`List.dedup` as a representative (the value observable through line 25 is
identical). -/
def faceColorsOf (card : Json) : Option (List String) :=
  match dictGet card "card_faces" with
  | some (some (.arr faces)) =>
    (faces.mapM colorsListOf).map (fun ls => ls.flatten.dedup)
  | _ => none

/-- Lines 21–25: the color folder. -/
def colorFolderOf (card : Json) : Option String := do
  let cl ← colorsListOf card
  let cl2 ← if cl.isEmpty ∧ hasKey card "card_faces"
            then faceColorsOf card else some cl
  some (if cl2.isEmpty then "Colorless" else joinAll (pySorted cl2))

/-- Lines 29: `card.get('type_line', '')`, expecting a string. -/
def typeLineOf (card : Json) : Option String :=
  match dictGet card "type_line" with
  | none => none
  | some none => some ""
  | some (some (.str s)) => some s
  | some (some _) => none

/-- Line 30: the fixed super-type vocabulary, in its fixed order. -/
def superTypeList : List String :=
  ["Basic", "Legendary", "Snow", "World", "Ongoing", "Elite"]

/-- Lines 29–32: the super-type folder. -/
def superFolderOf (card : Json) : Option String := do
  let tl ← typeLineOf card
  let found := superTypeList.filter (fun s => containsSub tl.data s.data)
  some (if found.isEmpty then "Normal" else joinSep " " found)

/-- Line 38: `.replace(" ", "_")`. -/
def underscoreSpaces (s : List Char) : List Char :=
  s.map (fun c => if c = ' ' then '_' else c)

/-- Lines 34–41: the sub-type folder.  The inner `none` models the
`IndexError` that `split(" — ")[1]` would raise were the split to produce
fewer than two parts (shown unreachable in `subFolder_total`). -/
def subFolderOf (card : Json) : Option String := do
  let tl ← typeLineOf card
  if containsSub tl.data dashSep then
    match (splitDash tl.data).get? 1 with
    | some part => some (String.mk (sanitize (underscoreSpaces part)))
    | none => none
  else
    some "No_Subtype"

/-- Lines 56: the sanitized card name (`card.get('name', 'Unknown_Card')`). -/
def cardNameOf (card : Json) : Option String :=
  match dictGet card "name" with
  | none => none
  | some none => some (sanitize_name "Unknown_Card")
  | some (some (.str s)) => some (sanitize_name s)
  | some (some _) => none

/-! ## `json.dump(card, out_f, indent=4)`

CPython's serializer on this fragment: 4-space indentation, item separator
`','`, key separator `': '`, `ensure_ascii=True` string escaping (named
escapes for `\" \\ \b \t \n \f \r`, lowercase `\uXXXX` for every other
character outside printable ASCII, surrogate pairs above U+FFFF). -/

/-- Lowercase hexadecimal digit for `d < 16`. -/
def hxDig (d : Nat) : Char :=
  Char.ofNat (if d < 10 then 48 + d else 87 + d)

/-- Four lowercase hex digits of `n < 0x10000`. -/
def hx4 (n : Nat) : List Char :=
  [hxDig (n / 4096 % 16), hxDig (n / 256 % 16), hxDig (n / 16 % 16), hxDig (n % 16)]

/-- The `ensure_ascii` escaping of one character. -/
def escCh (c : Char) : List Char :=
  if c = '"' then ['\\', '"']
  else if c = '\\' then ['\\', '\\']
  else if c.toNat = 8 then ['\\', 'b']
  else if c.toNat = 9 then ['\\', 't']
  else if c.toNat = 10 then ['\\', 'n']
  else if c.toNat = 12 then ['\\', 'f']
  else if c.toNat = 13 then ['\\', 'r']
  else if 32 ≤ c.toNat ∧ c.toNat ≤ 126 then [c]
  else if c.toNat < 65536 then '\\' :: 'u' :: hx4 c.toNat
  else
    '\\' :: 'u' :: hx4 (55296 + (c.toNat - 65536) / 1024) ++
      '\\' :: 'u' :: hx4 (56320 + (c.toNat - 65536) % 1024)

/-- The `ensure_ascii` escaping of a string body. -/
def escStr : List Char → List Char
  | [] => []
  | c :: cs => escCh c ++ escStr cs

/-- The indentation prefix at nesting level `lvl` (4 spaces per level). -/
def pad (lvl : Nat) : List Char := List.replicate (4 * lvl) ' '

mutual

/-- Characters of `json.dumps(j, indent=4)` at nesting level `lvl`. -/
def printJson : Nat → Json → List Char
  | _, .null => ['n', 'u', 'l', 'l']
  | _, .bool true => ['t', 'r', 'u', 'e']
  | _, .bool false => ['f', 'a', 'l', 's', 'e']
  | _, .num i => intChars i
  | _, .str s => '"' :: (escStr s.data ++ ['"'])
  | _, .arr [] => ['[', ']']
  | lvl, .arr (x :: xs) =>
    '[' :: (printItems (lvl + 1) x xs ++ '\n' :: (pad lvl ++ [']']))
  | _, .obj [] => ['{', '}']
  | lvl, .obj (m :: ms) =>
    '{' :: (printMembers (lvl + 1) m ms ++ '\n' :: (pad lvl ++ ['}']))
termination_by lvl j => sizeOf j
decreasing_by all_goals (simp_wf <;> omega)

/-- The newline-indented, comma-separated array elements. -/
def printItems : Nat → Json → List Json → List Char
  | lvl, x, [] => '\n' :: (pad lvl ++ printJson lvl x)
  | lvl, x, y :: ys =>
    '\n' :: (pad lvl ++ printJson lvl x) ++ ',' :: printItems lvl y ys
termination_by lvl x xs => sizeOf x + sizeOf xs
decreasing_by all_goals (simp_wf <;> omega)

/-- The newline-indented, comma-separated object members (`"key": value`). -/
def printMembers : Nat → (String × Json) → List (String × Json) → List Char
  | lvl, (k, v), [] =>
    '\n' :: (pad lvl ++ '"' :: (escStr k.data ++ '"' :: ':' :: ' ' :: printJson lvl v))
  | lvl, (k, v), m :: ms =>
    '\n' :: (pad lvl ++ '"' :: (escStr k.data ++ '"' :: ':' :: ' ' :: printJson lvl v)) ++
      ',' :: printMembers lvl m ms
termination_by lvl m ms => sizeOf m + sizeOf ms
decreasing_by all_goals (simp_wf <;> omega)

end

/-- The exact file content `json.dump(card, out_f, indent=4)` writes. -/
def pyJsonDump (card : Json) : String := String.mk (printJson 0 card)

/-! ## The writer and the whole run (lines 10–17 and 43–62) -/

/-- Lines 45–50: the target directory (`os.path.join` on four relative
segments; the script runs on a `/`-separated filesystem). -/
def targetDirOf (root : String) (card : Json) : Option String := do
  let cf ← colorFolderOf card
  let sf ← superFolderOf card
  let bf ← subFolderOf card
  some (root ++ "/" ++ cf ++ "/" ++ sf ++ "/" ++ bf)

/-- Lines 56–57: the full path of the written file. -/
def destPathOf (root : String) (card : Json) : Option String := do
  let dir ← targetDirOf root card
  let nm ← cardNameOf card
  some (dir ++ "/" ++ nm ++ ".json")

/-- The per-record loop of lines 18–60: in input order, each record yields a
created directory and a file write `(path, content)`.  A record on which the
Python body would raise aborts the run (`aborted = true`), keeping the
directories/writes made before that point.  Directories are created (line 53)
before the name is computed (line 56), hence the middle arm. -/
def processCards (root : String) : List Json → List String × List (String × String) × Bool
  | [] => ([], [], false)
  | card :: rest =>
    match targetDirOf root card with
    | none => ([], [], true)
    | some dir =>
      match cardNameOf card with
      | none => ([dir], [], true)
      | some nm =>
        match processCards root rest with
        | (dirs, writes, ab) =>
          (dir :: dirs, (dir ++ "/" ++ nm ++ ".json", pyJsonDump card) :: writes, ab)

/-- The outcome of one invocation of `organize_scryfall_data`. -/
structure RunOut where
  reported : Option String
  dirs : List String
  writes : List (String × String)
  aborted : Bool

/-- The whole run `organize_scryfall_data input_file output_root` (lines 9-62).  `input`
is `none` when `os.path.exists(input_file)` is false, and `some cards` for a
file whose contents parse into the record list `cards`. -/
def organizeData (input_file : String) (input : Option (List Json))
    (output_root : String) : RunOut :=
  match input with
  | none =>
    { reported := some ("Error: " ++ input_file ++
        " not found. Please ensure it is in the root directory."),
      dirs := [], writes := [], aborted := false }
  | some cards =>
    match processCards output_root cards with
    | (dirs, writes, ab) =>
      { reported := none, dirs := dirs, writes := writes, aborted := ab }

/-- A file tree: a map from paths to file contents. -/
def FileTree : Type := String → Option String

/-- The empty tree (fresh output directory). -/
def emptyTree : FileTree := fun _ => none

/-- Perform one write (creating or overwriting the file at `p`). -/
def doWrite (p c : String) (t : FileTree) : FileTree :=
  fun q => if q = p then some c else t q

/-- Perform a list of writes in order. -/
def doWrites : List (String × String) → FileTree → FileTree
  | [], t => t
  | (p, c) :: ws, t => doWrites ws (doWrite p c t)

/-- The file tree left by running the script over `cards` on top of an
existing tree `t`. -/
def runTree (root : String) (cards : List Json) (t : FileTree) : FileTree :=
  doWrites (processCards root cards).2.1 t

/-! ## `json.loads` on the serializer's output

A recursive-descent parser for the JSON fragment `json.dump` emits.  It is
total via a fuel parameter (one unit per grammar step; `pyJsonLoads` supplies
`length + 1`, which `dump_loads_roundTrip` proves sufficient). -/

/-- Value of one hexadecimal digit character (either case). -/
def hxVal (c : Char) : Option Nat :=
  if 48 ≤ c.toNat ∧ c.toNat ≤ 57 then some (c.toNat - 48)
  else if 97 ≤ c.toNat ∧ c.toNat ≤ 102 then some (c.toNat - 87)
  else if 65 ≤ c.toNat ∧ c.toNat ≤ 70 then some (c.toNat - 55)
  else none

/-- Value of a four-hex-digit escape payload. -/
def hx4Val (a b c d : Char) : Option Nat := do
  let va ← hxVal a
  let vb ← hxVal b
  let vc ← hxVal c
  let vd ← hxVal d
  some (va * 4096 + vb * 256 + vc * 16 + vd)

/-- Decode one named escape character. -/
def escCode (e : Char) : Option Char :=
  if e = '"' then some '"'
  else if e = '\\' then some '\\'
  else if e = '/' then some '/'
  else if e = 'n' then some '\n'
  else if e = 't' then some '\t'
  else if e = 'r' then some '\r'
  else if e = 'b' then some (Char.ofNat 8)
  else if e = 'f' then some (Char.ofNat 12)
  else none

/-- Prepend a decoded character to a string-body parse result. -/
def consFst (c : Char) : Option (List Char × List Char) → Option (List Char × List Char)
  | some (cs, t) => some (c :: cs, t)
  | none => none

mutual

/-- Parse a string body after the opening quote, up to and including the
closing quote, decoding escapes. -/
def strBody : List Char → Option (List Char × List Char)
  | [] => none
  | c :: r =>
    if c = '"' then some ([], r)
    else if c = '\\' then escSeq r
    else consFst c (strBody r)
termination_by s => s.length
decreasing_by all_goals (simp <;> omega)

/-- Decode what follows a backslash. -/
def escSeq : List Char → Option (List Char × List Char)
  | [] => none
  | e :: r2 =>
    if e = 'u' then uSeq r2
    else
      match escCode e with
      | some ch => consFst ch (strBody r2)
      | none => none
termination_by s => s.length
decreasing_by all_goals (simp <;> omega)

/-- Decode the four hex digits of a `\uXXXX` escape (surrogates pair up; a
lone surrogate is rejected, which the serializer never emits). -/
def uSeq : List Char → Option (List Char × List Char)
  | a :: b :: x :: d :: r3 =>
    match hx4Val a b x d with
    | none => none
    | some n =>
      if 55296 ≤ n ∧ n ≤ 56319 then pairSeq n r3
      else if 56320 ≤ n ∧ n ≤ 57343 then none
      else consFst (Char.ofNat n) (strBody r3)
  | _ => none
termination_by s => s.length
decreasing_by all_goals (simp <;> omega)

/-- Decode the low half of a surrogate pair (`n` is the high half). -/
def pairSeq (n : Nat) : List Char → Option (List Char × List Char)
  | '\\' :: 'u' :: a2 :: b2 :: x2 :: d2 :: r4 =>
    match hx4Val a2 b2 x2 d2 with
    | none => none
    | some m =>
      if 56320 ≤ m ∧ m ≤ 57343 then
        consFst (Char.ofNat (65536 + (n - 55296) * 1024 + (m - 56320))) (strBody r4)
      else none
  | _ => none
termination_by s => s.length
decreasing_by all_goals (simp <;> omega)

end

/-- Consume a maximal run of decimal digits, accumulating their value. -/
def grabDigits (acc : Nat) : List Char → Nat × List Char
  | [] => (acc, [])
  | c :: r =>
    if digitQ c then grabDigits (acc * 10 + (c.toNat - 48)) r else (acc, c :: r)

mutual

/-- Parse one JSON value (after skipping leading whitespace). -/
def parseVal : Nat → List Char → Option (Json × List Char)
  | 0, _ => none
  | fuel + 1, s =>
    match dropWs s with
    | [] => none
    | c :: r =>
      if c = 'n' then
        match r with
        | 'u' :: 'l' :: 'l' :: r2 => some (.null, r2)
        | _ => none
      else if c = 't' then
        match r with
        | 'r' :: 'u' :: 'e' :: r2 => some (.bool true, r2)
        | _ => none
      else if c = 'f' then
        match r with
        | 'a' :: 'l' :: 's' :: 'e' :: r2 => some (.bool false, r2)
        | _ => none
      else if c = '"' then
        match strBody r with
        | some (cs, r2) => some (.str (String.mk cs), r2)
        | none => none
      else if c = '[' then
        match dropWs r with
        | [] => none
        | c2 :: r2 =>
          if c2 = ']' then some (.arr [], r2)
          else
            match parseSeq fuel r with
            | some (xs, r3) => some (.arr xs, r3)
            | none => none
      else if c = '{' then
        match dropWs r with
        | [] => none
        | c2 :: r2 =>
          if c2 = '}' then some (.obj [], r2)
          else
            match parseFields fuel r with
            | some (ms, r3) => some (.obj ms, r3)
            | none => none
      else if c = '-' then
        match r with
        | [] => none
        | c2 :: r2 =>
          if digitQ c2 then
            match grabDigits 0 (c2 :: r2) with
            | (n, r3) => some (.num (-(n : Int)), r3)
          else none
      else if digitQ c then
        match grabDigits 0 (c :: r) with
        | (n, r2) => some (.num (n : Int), r2)
      else none

/-- Parse one or more comma-separated array elements and the closing `]`. -/
def parseSeq : Nat → List Char → Option (List Json × List Char)
  | 0, _ => none
  | fuel + 1, s =>
    match parseVal fuel s with
    | none => none
    | some (v, r) =>
      match dropWs r with
      | ',' :: r2 =>
        match parseSeq fuel r2 with
        | some (vs, r3) => some (v :: vs, r3)
        | none => none
      | ']' :: r2 => some ([v], r2)
      | _ => none

/-- Parse one or more `"key": value` members and the closing `}`. -/
def parseFields : Nat → List Char → Option (List (String × Json) × List Char)
  | 0, _ => none
  | fuel + 1, s =>
    match dropWs s with
    | '"' :: r =>
      match strBody r with
      | none => none
      | some (k, r1) =>
        match dropWs r1 with
        | ':' :: r2 =>
          match parseVal fuel r2 with
          | none => none
          | some (v, r3) =>
            match dropWs r3 with
            | ',' :: r4 =>
              match parseFields fuel r4 with
              | some (ms, r5) => some ((String.mk k, v) :: ms, r5)
              | none => none
            | '}' :: r4 => some ([(String.mk k, v)], r4)
            | _ => none
        | _ => none
    | _ => none

end

/-- Python's `json.loads`: parse a complete document, requiring only whitespace after
the value. -/
def pyJsonLoads (s : String) : Option Json :=
  match parseVal (s.data.length + 1) s.data with
  | some (j, r) => if dropWs r = [] then some j else none
  | none => none

/-! ## Round-trip support lemmas: digits, whitespace, hexadecimal -/

/-- Test that `rest` does not continue a digit run. -/
def noDigitHead : List Char → Bool
  | [] => true
  | c :: _ => !digitQ c

/-- The content the tail of a write list assigns to `p` (later writes win). -/
def lastWrite (p : String) : List (String × String) → Option String
  | [] => none
  | (q, c) :: ws =>
    match lastWrite p ws with
    | some c2 => some c2
    | none => if p = q then some c else none

/-! ## Helpers for the claim theorems -/

/-- The nine filesystem-illegal characters named by the specification. -/
def nineIllegal : List Char := ['\\', '/', '*', '?', ':', '"', '<', '>', '|']

/-- A string free of the nine filesystem-illegal characters. -/
def safeStr (s : String) : Bool := s.data.all (fun c => !illegalCh c)

/-- Line 57: the written file's name, `f"{card_name}.json"`. -/
def fullFileName (card : Json) : Option String :=
  (cardNameOf card).map (fun nm => nm ++ ".json")

/-! ## Theorems: the split, the codec and the writer -/

theorem containsSub_dashSep_cons3 (c1 c2 c3 : Char) (r : List Char) :
    containsSub (c1 :: c2 :: c3 :: r) dashSep =
      ((c1 = ' ' ∧ c2 = '—' ∧ c3 = ' ') ∨ containsSub (c2 :: c3 :: r) dashSep = true) := by
  simp only [containsSub, dashSep, startsWithL, Bool.or_eq_true, eq_iff_iff]
  constructor
  · rintro (h | h)
    · left
      by_cases h1 : c1 = ' ' <;> by_cases h2 : c2 = '—' <;> by_cases h3 : c3 = ' ' <;>
        simp_all [startsWithL]
    · right; simpa [containsSub] using h
  · rintro (⟨h1, h2, h3⟩ | h)
    · left; simp [h1, h2, h3, startsWithL]
    · right; simpa [containsSub] using h

theorem containsSub_dashSep_short (s : List Char) (h : s.length < 3) :
    containsSub s dashSep = false := by
  match s, h with
  | [], _ => rfl
  | [c], _ => simp [containsSub, dashSep, startsWithL]
  | [c1, c2], _ =>
    simp only [containsSub, dashSep, startsWithL, Bool.or_eq_false_iff]
    refine ⟨?_, ?_, trivial⟩ <;> split <;> (try split) <;> rfl

theorem splitDash_ne_nil (s : List Char) : splitDash s ≠ [] := by
  induction s using splitDash.induct with
  | case1 c1 c2 c3 r h ih => simp [splitDash, h]
  | case2 c1 c2 c3 r h ih =>
    simp only [splitDash, if_neg h]
    cases hs : splitDash (c2 :: c3 :: r) <;> simp [headSplice]
  | case3 c1 c2 ih =>
    simp only [splitDash]
    cases hs : splitDash [c2] <;> simp [headSplice]
  | case4 c => simp [splitDash]
  | case5 => simp [splitDash]

/-- The first part produced by `split(" — ")` is the text before the first
separator occurrence. -/
theorem splitDash_head (s : List Char) :
    (splitDash s).head? = some (beforeSep s) := by
  induction s using splitDash.induct with
  | case1 c1 c2 c3 r h ih => simp [splitDash, beforeSep, h]
  | case2 c1 c2 c3 r h ih =>
    simp only [splitDash, beforeSep, if_neg h]
    cases hs : splitDash (c2 :: c3 :: r) with
    | nil => exact absurd hs (splitDash_ne_nil _)
    | cons p ps =>
      rw [hs] at ih
      simp only [List.head?] at ih
      simp [headSplice, List.head?, Option.some.injEq] at ih ⊢
      exact ih
  | case3 c1 c2 ih => simp [splitDash, headSplice, beforeSep]
  | case4 c => simp [splitDash, beforeSep]
  | case5 => simp [splitDash, beforeSep]

/-- When the separator occurs, the part at index 1 of `split(" — ")` is the
text strictly between the first and the second occurrence. -/
theorem splitDash_get1 (s : List Char) (h : containsSub s dashSep = true) :
    (splitDash s).get? 1 = some (beforeSep (afterFirstSep s)) := by
  induction s using splitDash.induct with
  | case1 c1 c2 c3 r hc ih =>
    simp only [splitDash, if_pos hc, afterFirstSep]
    have hh := splitDash_head r
    cases hs : splitDash r with
    | nil => exact absurd hs (splitDash_ne_nil _)
    | cons p ps =>
      rw [hs] at hh
      simp only [List.head?, Option.some.injEq] at hh
      simp [List.get?, hh]
  | case2 c1 c2 c3 r hc ih =>
    rw [containsSub_dashSep_cons3] at h
    rcases h with h | h
    · exact absurd h hc
    · have := ih h
      simp only [splitDash, if_neg hc, afterFirstSep]
      cases hs : splitDash (c2 :: c3 :: r) with
      | nil => exact absurd hs (splitDash_ne_nil _)
      | cons p ps =>
        rw [hs] at this
        simpa [headSplice, List.get?] using this
  | case3 c1 c2 ih =>
    rw [containsSub_dashSep_short _ (by simp)] at h; exact absurd h (by simp)
  | case4 c =>
    rw [containsSub_dashSep_short _ (by simp)] at h; exact absurd h (by simp)
  | case5 =>
    rw [containsSub_dashSep_short _ (by simp)] at h; exact absurd h (by simp)

/-- The claim C10 guard: when the separator occurs, the split has at least two
parts, so the index-1 access of line 37 is in bounds. -/
theorem splitDash_length_ge_two (s : List Char) (h : containsSub s dashSep = true) :
    2 ≤ (splitDash s).length := by
  have hg := splitDash_get1 s h
  by_contra hlt
  have : (splitDash s).get? 1 = none := List.get?_eq_none.mpr (by omega)
  rw [this] at hg
  exact Option.noConfusion hg

theorem digitCh_toNat (d : Nat) (h : d < 10) : (digitCh d).toNat = 48 + d := by
  interval_cases d <;> rfl

theorem digitQ_digitCh (d : Nat) (h : d < 10) : digitQ (digitCh d) = true := by
  interval_cases d <;> rfl

theorem decChars_digits (n : Nat) : ∀ c ∈ decChars n, digitQ c = true := by
  induction n using Nat.strong_induction_on with
  | _ n ih =>
    intro c hc
    rw [decChars] at hc
    by_cases h : n < 10
    · rw [if_pos h] at hc
      simp only [List.mem_singleton] at hc
      exact hc ▸ digitQ_digitCh n h
    · rw [if_neg h] at hc
      rcases List.mem_append.mp hc with h2 | h2
      · exact ih (n / 10) (by omega) c h2
      · simp only [List.mem_singleton] at h2
        exact h2 ▸ digitQ_digitCh (n % 10) (by omega)

theorem decChars_shape (n : Nat) :
    ∃ c t, decChars n = c :: t ∧ digitQ c = true := by
  induction n using Nat.strong_induction_on with
  | _ n ih =>
    rw [decChars]
    by_cases h : n < 10
    · exact ⟨digitCh n, [], by rw [if_pos h], digitQ_digitCh n h⟩
    · obtain ⟨c, t, hct, hd⟩ := ih (n / 10) (by omega)
      exact ⟨c, t ++ [digitCh (n % 10)], by rw [if_neg h, hct]; rfl, hd⟩

theorem grabDigits_stop (acc : Nat) (rest : List Char)
    (h : noDigitHead rest = true) : grabDigits acc rest = (acc, rest) := by
  cases rest with
  | nil => rfl
  | cons c r =>
    simp only [noDigitHead, Bool.not_eq_true'] at h
    simp [grabDigits, h]

theorem grabDigits_decChars (n : Nat) : ∀ acc rest,
    grabDigits acc (decChars n ++ rest) =
      grabDigits (acc * 10 ^ (decChars n).length + n) rest := by
  induction n using Nat.strong_induction_on with
  | _ n ih =>
    intro acc rest
    rw [decChars]
    by_cases h : n < 10
    · rw [if_pos h]
      simp only [List.cons_append, List.nil_append, List.length_singleton]
      rw [grabDigits]
      rw [if_pos (digitQ_digitCh n h), digitCh_toNat n h]
      congr 1
      omega
    · rw [if_neg h]
      rw [List.append_assoc, ih (n / 10) (by omega)]
      simp only [List.cons_append, List.nil_append]
      rw [grabDigits, if_pos (digitQ_digitCh (n % 10) (by omega)),
        digitCh_toNat (n % 10) (by omega)]
      rw [List.length_append, List.length_singleton]
      congr 1
      have key : acc * 10 ^ ((decChars (n / 10)).length + 1) =
          acc * 10 ^ (decChars (n / 10)).length * 10 := by
        rw [pow_succ]; ring
      rw [key]
      generalize acc * 10 ^ (decChars (n / 10)).length = A
      omega

theorem grabDigits_run (n : Nat) (rest : List Char) (h : noDigitHead rest = true) :
    grabDigits 0 (decChars n ++ rest) = (n, rest) := by
  rw [grabDigits_decChars, Nat.zero_mul, Nat.zero_add, grabDigits_stop _ _ h]

/-- A digit character is none of the parser's dispatch characters. -/
theorem digitQ_ne (c : Char) (h : digitQ c = true) :
    c ≠ 'n' ∧ c ≠ 't' ∧ c ≠ 'f' ∧ c ≠ '"' ∧ c ≠ '[' ∧ c ≠ '{' ∧ c ≠ '-' ∧
      wsp c = false ∧ c ≠ ']' ∧ c ≠ '}' ∧ c ≠ ',' := by
  refine ⟨?_, ?_, ?_, ?_, ?_, ?_, ?_, ?_, ?_, ?_, ?_⟩ <;>
    first
    | (intro hc; subst hc; exact absurd h (by decide))
    | (simp only [digitQ, Bool.and_eq_true, decide_eq_true_eq] at h
       simp only [wsp, Bool.or_eq_false_iff, decide_eq_false_iff_not]
       omega)

theorem dropWs_app (a : List Char) (h : ∀ c ∈ a, wsp c = true) (s : List Char) :
    dropWs (a ++ s) = dropWs s := by
  induction a with
  | nil => rfl
  | cons c r ih =>
    simp only [List.cons_append, dropWs, if_pos (h c (by simp))]
    exact ih (fun x hx => h x (by simp [hx]))

theorem dropWs_noWs (c : Char) (s : List Char) (h : wsp c = false) :
    dropWs (c :: s) = c :: s := by
  simp [dropWs, h]

theorem pad_wsp (lvl : Nat) : ∀ c ∈ pad lvl, wsp c = true := by
  intro c hc
  rw [pad, List.mem_replicate] at hc
  rw [hc.2]; rfl

theorem hxVal_hxDig (d : Nat) (h : d < 16) : hxVal (hxDig d) = some d := by
  interval_cases d <;> rfl

theorem hx4Val_parts (n : Nat) (h : n < 65536) :
    hx4Val (hxDig (n / 4096 % 16)) (hxDig (n / 256 % 16))
      (hxDig (n / 16 % 16)) (hxDig (n % 16)) = some n := by
  rw [hx4Val, hxVal_hxDig _ (Nat.mod_lt _ (by omega)),
    hxVal_hxDig _ (Nat.mod_lt _ (by omega)), hxVal_hxDig _ (Nat.mod_lt _ (by omega)),
    hxVal_hxDig _ (Nat.mod_lt _ (by omega))]
  simp only [Option.bind_eq_bind, Option.some_bind, Option.some.injEq]
  omega

/-- Every `Char` is a Unicode scalar value: below the surrogate block or
above it and below `0x110000`. -/
theorem char_scalar (c : Char) : c.toNat < 55296 ∨ (57343 < c.toNat ∧ c.toNat < 1114112) := by
  have h := c.valid
  unfold UInt32.isValidChar Nat.isValidChar at h
  exact h

/-! ## The string codec round-trip -/

/-- Parsing one escaped character undoes `ensure_ascii` escaping. -/
theorem strBody_escCh (c : Char) (t : List Char) :
    strBody (escCh c ++ t) = consFst c (strBody t) := by
  by_cases h1 : c = '"'
  · subst h1
    rw [show escCh '"' ++ t = '\\' :: '"' :: t from rfl]
    simp [strBody, escSeq, escCode]
  by_cases h2 : c = '\\'
  · subst h2
    rw [show escCh '\\' ++ t = '\\' :: '\\' :: t from rfl]
    simp [strBody, escSeq, escCode]
  by_cases h3 : c.toNat = 8
  · have hc : Char.ofNat 8 = c := by rw [← h3, Char.ofNat_toNat]
    rw [← hc, show escCh (Char.ofNat 8) ++ t = '\\' :: 'b' :: t from rfl]
    simp [strBody, escSeq, escCode]
  by_cases h4 : c.toNat = 9
  · have hc : Char.ofNat 9 = c := by rw [← h4, Char.ofNat_toNat]
    rw [← hc, show escCh (Char.ofNat 9) ++ t = '\\' :: 't' :: t from rfl]
    simp [strBody, escSeq, escCode]
  by_cases h5 : c.toNat = 10
  · have hc : Char.ofNat 10 = c := by rw [← h5, Char.ofNat_toNat]
    rw [← hc, show escCh (Char.ofNat 10) ++ t = '\\' :: 'n' :: t from rfl]
    simp [strBody, escSeq, escCode]
  by_cases h6 : c.toNat = 12
  · have hc : Char.ofNat 12 = c := by rw [← h6, Char.ofNat_toNat]
    rw [← hc, show escCh (Char.ofNat 12) ++ t = '\\' :: 'f' :: t from rfl]
    simp [strBody, escSeq, escCode]
  by_cases h7 : c.toNat = 13
  · have hc : Char.ofNat 13 = c := by rw [← h7, Char.ofNat_toNat]
    rw [← hc, show escCh (Char.ofNat 13) ++ t = '\\' :: 'r' :: t from rfl]
    simp [strBody, escSeq, escCode]
  by_cases h8 : 32 ≤ c.toNat ∧ c.toNat ≤ 126
  · have he : escCh c = [c] := by
      rw [escCh, if_neg h1, if_neg h2, if_neg h3, if_neg h4, if_neg h5,
        if_neg h6, if_neg h7, if_pos h8]
    rw [he, List.singleton_append]
    simp [strBody, h1, h2]
  have hsc := char_scalar c
  by_cases h9 : c.toNat < 65536
  · have hm := hx4Val_parts c.toNat h9
    have hns1 : ¬(55296 ≤ c.toNat ∧ c.toNat ≤ 56319) := by omega
    have hns2 : ¬(56320 ≤ c.toNat ∧ c.toNat ≤ 57343) := by omega
    have he : escCh c = '\\' :: 'u' :: hx4 c.toNat := by
      rw [escCh, if_neg h1, if_neg h2, if_neg h3, if_neg h4, if_neg h5,
        if_neg h6, if_neg h7, if_neg h8, if_pos h9]
    rw [he, hx4]
    simp only [List.cons_append, List.nil_append]
    simp [strBody, escSeq, uSeq, hm, hns1, hns2, Char.ofNat_toNat]
  · have hhi : 55296 + (c.toNat - 65536) / 1024 < 65536 := by omega
    have hlo : 56320 + (c.toNat - 65536) % 1024 < 65536 := by omega
    have hm1 := hx4Val_parts _ hhi
    have hm2 := hx4Val_parts _ hlo
    have hr1 : 55296 ≤ 55296 + (c.toNat - 65536) / 1024 ∧
        55296 + (c.toNat - 65536) / 1024 ≤ 56319 := by omega
    have hr2 : 56320 ≤ 56320 + (c.toNat - 65536) % 1024 ∧
        56320 + (c.toNat - 65536) % 1024 ≤ 57343 := by omega
    have harith : 65536 + (55296 + (c.toNat - 65536) / 1024 - 55296) * 1024 +
        (56320 + (c.toNat - 65536) % 1024 - 56320) = c.toNat := by omega
    have he : escCh c = '\\' :: 'u' :: hx4 (55296 + (c.toNat - 65536) / 1024) ++
        '\\' :: 'u' :: hx4 (56320 + (c.toNat - 65536) % 1024) := by
      rw [escCh, if_neg h1, if_neg h2, if_neg h3, if_neg h4, if_neg h5,
        if_neg h6, if_neg h7, if_neg h8, if_neg h9]
    rw [he, hx4, hx4]
    simp only [List.cons_append, List.nil_append, List.append_assoc]
    simp [strBody, escSeq, uSeq, pairSeq, hm1, hm2, hr1, hr2, harith,
      Char.ofNat_toNat]
    have harith2 : 65536 + (c.toNat - 65536) / 1024 * 1024 +
        (c.toNat - 65536) % 1024 = c.toNat := by omega
    rw [harith2, Char.ofNat_toNat]

/-- Parsing an escaped string body stops exactly at the closing quote and
recovers the original characters. -/
theorem strBody_escStr (s : List Char) : ∀ t : List Char,
    strBody (escStr s ++ '"' :: t) = some (s, t) := by
  induction s with
  | nil =>
    intro t
    rw [escStr, List.nil_append]
    simp [strBody]
  | cons c cs ih =>
    intro t
    rw [escStr, List.append_assoc, strBody_escCh, ih t]
    rfl

/-- String-structure eta: rebuilding a string from its characters is the
identity. -/
theorem strMk_data (s : String) : String.mk s.data = s := rfl

theorem dropWs_cons_ws (c : Char) (s : List Char) (h : wsp c = true) :
    dropWs (c :: s) = dropWs s := by
  simp [dropWs, h]

/-- Every printed value starts with a non-whitespace character that closes
nothing. -/
theorem printJson_shape (lvl : Nat) (j : Json) :
    ∃ c t, printJson lvl j = c :: t ∧ wsp c = false ∧ c ≠ ']' ∧ c ≠ '}' := by
  cases j with
  | null =>
    exact ⟨'n', ['u', 'l', 'l'], by simp [printJson], by decide, by decide, by decide⟩
  | bool b =>
    cases b with
    | true =>
      exact ⟨'t', ['r', 'u', 'e'], by simp [printJson], by decide, by decide, by decide⟩
    | false =>
      exact ⟨'f', ['a', 'l', 's', 'e'], by simp [printJson], by decide, by decide,
        by decide⟩
  | str s =>
    exact ⟨'"', escStr s.data ++ ['"'], by simp [printJson], by decide, by decide,
      by decide⟩
  | num i =>
    by_cases hneg : i < 0
    · exact ⟨'-', decChars i.natAbs, by simp [printJson, intChars, hneg], by decide,
        by decide, by decide⟩
    · obtain ⟨c, t, hct, hd⟩ := decChars_shape i.natAbs
      obtain ⟨-, -, -, -, -, -, -, hws, hbr, hbc, -⟩ := digitQ_ne c hd
      exact ⟨c, t, by simp [printJson, intChars, hneg, hct], hws, hbr, hbc⟩
  | arr xs =>
    cases xs with
    | nil => exact ⟨'[', [']'], by simp [printJson], by decide, by decide, by decide⟩
    | cons x xs =>
      exact ⟨'[', printItems (lvl + 1) x xs ++ '\n' :: (pad lvl ++ [']']),
        by simp [printJson], by decide, by decide, by decide⟩
  | obj ms =>
    cases ms with
    | nil => exact ⟨'{', ['}'], by simp [printJson], by decide, by decide, by decide⟩
    | cons m ms =>
      exact ⟨'{', printMembers (lvl + 1) m ms ++ '\n' :: (pad lvl ++ ['}']),
        by simp [printJson], by decide, by decide, by decide⟩

theorem dropWs_printJson (lvl : Nat) (j : Json) (x : List Char) :
    dropWs (printJson lvl j ++ x) = printJson lvl j ++ x := by
  obtain ⟨c, t, hct, hws, -, -⟩ := printJson_shape lvl j
  rw [hct, List.cons_append, dropWs_noWs _ _ hws]

/-- Skipping whitespace over one indented element lands on its value. -/
theorem dropWs_item (lv lv2 : Nat) (j : Json) (y : List Char) :
    dropWs (('\n' :: (pad lv ++ printJson lv2 j)) ++ y) = printJson lv2 j ++ y := by
  rw [List.cons_append, dropWs_cons_ws _ _ (by decide), List.append_assoc,
    dropWs_app (pad lv) (pad_wsp lv), dropWs_printJson]

/-- Skipping whitespace over one indented member lands on its opening quote. -/
theorem dropWs_member (lv lv2 : Nat) (k : String) (v : Json) (y : List Char) :
    dropWs (('\n' :: (pad lv ++ '"' :: (escStr k.data ++ '"' :: ':' :: ' ' ::
        printJson lv2 v))) ++ y) =
      '"' :: ((escStr k.data ++ '"' :: ':' :: ' ' :: printJson lv2 v) ++ y) := by
  rw [List.cons_append, dropWs_cons_ws _ _ (by decide), List.append_assoc,
    dropWs_app (pad lv) (pad_wsp lv), List.cons_append,
    dropWs_noWs _ _ (by decide)]

/-- The parser ignores leading whitespace. -/
theorem parseVal_wsPre (a : List Char) (h : ∀ c ∈ a, wsp c = true)
    (fuel : Nat) (s : List Char) :
    parseVal fuel (a ++ s) = parseVal fuel s := by
  cases fuel with
  | zero => rfl
  | succ f =>
    simp only [parseVal]
    rw [dropWs_app a h]

/-- The parser's dispatch on a leading digit reaches the number branch. -/
theorem parseVal_digit (f : Nat) (c : Char) (t : List Char) (h : digitQ c = true) :
    parseVal (f + 1) (c :: t) =
      some (.num ((grabDigits 0 (c :: t)).1 : Int), (grabDigits 0 (c :: t)).2) := by
  obtain ⟨hn, ht, hf, hq, hbk, hbc, hm, hws, -, -, -⟩ := digitQ_ne c h
  simp only [parseVal]
  rw [dropWs_noWs c t hws]
  simp [hn, ht, hf, hq, hbk, hbc, hm, h]

/-- The head of a printed element run, after whitespace, closes nothing. -/
theorem dropWs_printItems (lvl : Nat) (x : Json) (xs : List Json) (y : List Char) :
    ∃ c t, dropWs (printItems lvl x xs ++ y) = c :: t ∧ c ≠ ']' ∧ c ≠ '}' := by
  obtain ⟨c, t, hct, hws, hbr, hbc⟩ := printJson_shape lvl x
  cases xs with
  | nil =>
    refine ⟨c, t ++ y, ?_, hbr, hbc⟩
    rw [printItems, dropWs_item, hct, List.cons_append]
  | cons z zs =>
    refine ⟨c, t ++ (',' :: printItems lvl z zs ++ y), ?_, hbr, hbc⟩
    rw [printItems, List.append_assoc, dropWs_item, hct, List.cons_append]

/-- A printed member run starts, after whitespace, with its key's quote. -/
theorem dropWs_printMembers (lvl : Nat) (m : String × Json)
    (ms : List (String × Json)) (y : List Char) :
    ∃ t, dropWs (printMembers lvl m ms ++ y) = '"' :: t := by
  obtain ⟨k, v⟩ := m
  cases ms with
  | nil => exact ⟨_, by rw [printMembers, dropWs_member]⟩
  | cons m2 ms2 =>
    exact ⟨_, by rw [printMembers, List.append_assoc, dropWs_member]⟩

mutual

/-- Parsing a printed value recovers it, leaving the remainder untouched. -/
theorem dlVal : ∀ (j : Json) (fuel lvl : Nat) (rest : List Char),
    (printJson lvl j).length < fuel → noDigitHead rest = true →
    parseVal fuel (printJson lvl j ++ rest) = some (j, rest)
  | .null, fuel, lvl, rest, hf, _ => by
    cases fuel with
    | zero => exact absurd hf (Nat.not_lt_zero _)
    | succ f =>
      rw [show printJson lvl .null ++ rest = 'n' :: 'u' :: 'l' :: 'l' :: rest from by
        simp [printJson]]
      simp only [parseVal]
      rw [dropWs_noWs _ _ (by decide)]
      simp
  | .bool true, fuel, lvl, rest, hf, _ => by
    cases fuel with
    | zero => exact absurd hf (Nat.not_lt_zero _)
    | succ f =>
      rw [show printJson lvl (.bool true) ++ rest = 't' :: 'r' :: 'u' :: 'e' :: rest from by
        simp [printJson]]
      simp only [parseVal]
      rw [dropWs_noWs _ _ (by decide)]
      simp
  | .bool false, fuel, lvl, rest, hf, _ => by
    cases fuel with
    | zero => exact absurd hf (Nat.not_lt_zero _)
    | succ f =>
      rw [show printJson lvl (.bool false) ++ rest =
          'f' :: 'a' :: 'l' :: 's' :: 'e' :: rest from by simp [printJson]]
      simp only [parseVal]
      rw [dropWs_noWs _ _ (by decide)]
      simp
  | .str s, fuel, lvl, rest, hf, _ => by
    cases fuel with
    | zero => exact absurd hf (Nat.not_lt_zero _)
    | succ f =>
      rw [show printJson lvl (.str s) ++ rest =
          '"' :: (escStr s.data ++ '"' :: rest) from by simp [printJson]]
      simp only [parseVal]
      rw [dropWs_noWs _ _ (by decide)]
      simp [strBody_escStr, strMk_data]
  | .num i, fuel, lvl, rest, hf, hr => by
    cases fuel with
    | zero => exact absurd hf (Nat.not_lt_zero _)
    | succ f =>
      obtain ⟨c, t, hct, hd⟩ := decChars_shape i.natAbs
      by_cases hneg : i < 0
      · have harg : printJson lvl (.num i) ++ rest =
            '-' :: (c :: (t ++ rest)) := by
          simp [printJson, intChars, hneg, hct]
        rw [harg]
        simp only [parseVal]
        rw [dropWs_noWs _ _ (by decide)]
        have hgrab : grabDigits 0 (c :: (t ++ rest)) = (i.natAbs, rest) := by
          rw [← List.cons_append, ← hct, grabDigits_run _ _ hr]
        simp [hd, hgrab]
        rw [abs_of_nonpos (by omega : i ≤ 0)]
        ring
      · have harg : printJson lvl (.num i) ++ rest = c :: (t ++ rest) := by
          simp [printJson, intChars, hneg, hct]
        rw [harg, parseVal_digit f c _ hd]
        have hgrab : grabDigits 0 (c :: (t ++ rest)) = (i.natAbs, rest) := by
          rw [← List.cons_append, ← hct, grabDigits_run _ _ hr]
        simp [hgrab]
        omega
  | .arr [], fuel, lvl, rest, hf, _ => by
    cases fuel with
    | zero => exact absurd hf (Nat.not_lt_zero _)
    | succ f =>
      rw [show printJson lvl (.arr []) ++ rest = '[' :: ']' :: rest from by
        simp [printJson]]
      simp only [parseVal]
      rw [dropWs_noWs _ _ (by decide)]
      have hdw : dropWs (']' :: rest) = ']' :: rest := dropWs_noWs _ _ (by decide)
      simp [hdw]
  | .arr (x :: xs), fuel, lvl, rest, hf, _ => by
    cases fuel with
    | zero => exact absurd hf (Nat.not_lt_zero _)
    | succ f =>
      have hlen : (printItems (lvl + 1) x xs).length + 1 < f := by
        have he : (printJson lvl (.arr (x :: xs))).length =
            (printItems (lvl + 1) x xs).length + (4 * lvl) + 3 := by
          simp [printJson, pad]
          omega
        omega
      have harg : printJson lvl (.arr (x :: xs)) ++ rest =
          '[' :: (printItems (lvl + 1) x xs ++ '\n' :: (pad lvl ++ ']' :: rest)) := by
        simp [printJson]
      obtain ⟨c0, t0, hdw, hbr0, -⟩ :=
        dropWs_printItems (lvl + 1) x xs ('\n' :: (pad lvl ++ ']' :: rest))
      have hseq := dlSeq x xs f (lvl + 1) (pad lvl) rest (pad_wsp lvl) hlen
      rw [harg]
      simp only [parseVal]
      rw [dropWs_noWs _ _ (by decide)]
      simp [hdw, hbr0, hseq]
  | .obj [], fuel, lvl, rest, hf, _ => by
    cases fuel with
    | zero => exact absurd hf (Nat.not_lt_zero _)
    | succ f =>
      rw [show printJson lvl (.obj []) ++ rest = '{' :: '}' :: rest from by
        simp [printJson]]
      simp only [parseVal]
      rw [dropWs_noWs _ _ (by decide)]
      have hdw : dropWs ('}' :: rest) = '}' :: rest := dropWs_noWs _ _ (by decide)
      simp [hdw]
  | .obj (m :: ms), fuel, lvl, rest, hf, _ => by
    cases fuel with
    | zero => exact absurd hf (Nat.not_lt_zero _)
    | succ f =>
      have hlen : (printMembers (lvl + 1) m ms).length + 1 < f := by
        have he : (printJson lvl (.obj (m :: ms))).length =
            (printMembers (lvl + 1) m ms).length + (4 * lvl) + 3 := by
          simp [printJson, pad]
          omega
        omega
      have harg : printJson lvl (.obj (m :: ms)) ++ rest =
          '{' :: (printMembers (lvl + 1) m ms ++ '\n' :: (pad lvl ++ '}' :: rest)) := by
        simp [printJson]
      obtain ⟨t0, hdw⟩ :=
        dropWs_printMembers (lvl + 1) m ms ('\n' :: (pad lvl ++ '}' :: rest))
      have hfl := dlFields m ms f (lvl + 1) (pad lvl) rest (pad_wsp lvl) hlen
      rw [harg]
      simp only [parseVal]
      rw [dropWs_noWs _ _ (by decide)]
      simp [hdw, hfl]
termination_by j _ _ _ => sizeOf j
decreasing_by all_goals (simp_wf <;> omega)

/-- Parsing a printed element run recovers the elements and consumes the
closing bracket. -/
theorem dlSeq : ∀ (x : Json) (xs : List Json) (fuel lvl : Nat) (ws rest : List Char),
    (∀ c ∈ ws, wsp c = true) → (printItems lvl x xs).length + 1 < fuel →
    parseSeq fuel (printItems lvl x xs ++ '\n' :: (ws ++ ']' :: rest)) =
      some (x :: xs, rest)
  | x, [], fuel, lvl, ws, rest, hws, hf => by
    cases fuel with
    | zero => exact absurd hf (Nat.not_lt_zero _)
    | succ f =>
      have hlx : (printJson lvl x).length < f := by
        have he : (printItems lvl x []).length = (printJson lvl x).length + 4 * lvl + 1 := by
          simp [printItems, pad]
          omega
        omega
      have hv := dlVal x f lvl ('\n' :: (ws ++ ']' :: rest)) hlx (by rfl)
      simp only [parseSeq]
      rw [show printItems lvl x [] ++ '\n' :: (ws ++ ']' :: rest) =
          ('\n' :: pad lvl) ++ (printJson lvl x ++ '\n' :: (ws ++ ']' :: rest)) from by
        simp [printItems]]
      rw [parseVal_wsPre ('\n' :: pad lvl)
        (by
          intro c hc
          rcases List.mem_cons.mp hc with rfl | h
          · rfl
          · exact pad_wsp lvl c h) f _, hv]
      have hdw : dropWs ('\n' :: (ws ++ ']' :: rest)) = ']' :: rest := by
        rw [dropWs_cons_ws _ _ (by decide), dropWs_app ws hws,
          dropWs_noWs _ _ (by decide)]
      simp [hdw]
  | x, z :: zs, fuel, lvl, ws, rest, hws, hf => by
    cases fuel with
    | zero => exact absurd hf (Nat.not_lt_zero _)
    | succ f =>
      have hlens : (printItems lvl x (z :: zs)).length =
          (printJson lvl x).length + 4 * lvl + 2 + (printItems lvl z zs).length := by
        simp [printItems, pad]
        omega
      have hlx : (printJson lvl x).length < f := by omega
      have hlz : (printItems lvl z zs).length + 1 < f := by omega
      have hv := dlVal x f lvl
        (',' :: (printItems lvl z zs ++ '\n' :: (ws ++ ']' :: rest))) hlx (by rfl)
      have hrec := dlSeq z zs f lvl ws rest hws hlz
      simp only [parseSeq]
      rw [show printItems lvl x (z :: zs) ++ '\n' :: (ws ++ ']' :: rest) =
          ('\n' :: pad lvl) ++ (printJson lvl x ++
            (',' :: (printItems lvl z zs ++ '\n' :: (ws ++ ']' :: rest)))) from by
        simp [printItems]]
      rw [parseVal_wsPre ('\n' :: pad lvl)
        (by
          intro c hc
          rcases List.mem_cons.mp hc with rfl | h
          · rfl
          · exact pad_wsp lvl c h) f _, hv]
      have hdw : dropWs (',' :: (printItems lvl z zs ++ '\n' :: (ws ++ ']' :: rest))) =
          ',' :: (printItems lvl z zs ++ '\n' :: (ws ++ ']' :: rest)) :=
        dropWs_noWs _ _ (by decide)
      simp [hdw, hrec]
termination_by x xs _ _ _ _ => sizeOf x + sizeOf xs
decreasing_by all_goals (simp_wf <;> omega)

/-- Parsing a printed member run recovers the members and consumes the
closing brace. -/
theorem dlFields : ∀ (m : String × Json) (ms : List (String × Json))
    (fuel lvl : Nat) (ws rest : List Char),
    (∀ c ∈ ws, wsp c = true) → (printMembers lvl m ms).length + 1 < fuel →
    parseFields fuel (printMembers lvl m ms ++ '\n' :: (ws ++ '}' :: rest)) =
      some (m :: ms, rest)
  | (k, v), [], fuel, lvl, ws, rest, hws, hf => by
    cases fuel with
    | zero => exact absurd hf (Nat.not_lt_zero _)
    | succ f =>
      have hlv : (printJson lvl v).length < f := by
        have he : (printMembers lvl (k, v) []).length =
            (printJson lvl v).length + 4 * lvl + (escStr k.data).length + 5 := by
          simp [printMembers, pad]
          omega
        omega
      have hv := dlVal v f lvl ('\n' :: (ws ++ '}' :: rest)) hlv (by rfl)
      have hv2 : parseVal f (' ' :: (printJson lvl v ++ '\n' :: (ws ++ '}' :: rest))) =
          some (v, '\n' :: (ws ++ '}' :: rest)) := by
        rw [show (' ' :: (printJson lvl v ++ '\n' :: (ws ++ '}' :: rest))) =
            [' '] ++ (printJson lvl v ++ '\n' :: (ws ++ '}' :: rest)) from rfl,
          parseVal_wsPre [' '] (by intro c hc; simp at hc; rw [hc]; rfl) f _, hv]
      have hsb := strBody_escStr k.data
        (':' :: ' ' :: (printJson lvl v ++ '\n' :: (ws ++ '}' :: rest)))
      have hdw1 : dropWs (':' :: ' ' :: (printJson lvl v ++ '\n' :: (ws ++ '}' :: rest))) =
          ':' :: ' ' :: (printJson lvl v ++ '\n' :: (ws ++ '}' :: rest)) :=
        dropWs_noWs _ _ (by decide)
      have hdw2 : dropWs ('\n' :: (ws ++ '}' :: rest)) = '}' :: rest := by
        rw [dropWs_cons_ws _ _ (by decide), dropWs_app ws hws,
          dropWs_noWs _ _ (by decide)]
      simp only [parseFields]
      rw [printMembers, dropWs_member]
      simp [hsb, hdw1, hv2, hdw2, strMk_data]
  | (k, v), m2 :: ms2, fuel, lvl, ws, rest, hws, hf => by
    cases fuel with
    | zero => exact absurd hf (Nat.not_lt_zero _)
    | succ f =>
      have hlens : (printMembers lvl (k, v) (m2 :: ms2)).length =
          (printJson lvl v).length + 4 * lvl + (escStr k.data).length + 6 +
            (printMembers lvl m2 ms2).length := by
        simp [printMembers, pad]
        omega
      have hlv : (printJson lvl v).length < f := by omega
      have hlm : (printMembers lvl m2 ms2).length + 1 < f := by omega
      have hv := dlVal v f lvl
        (',' :: (printMembers lvl m2 ms2 ++ '\n' :: (ws ++ '}' :: rest))) hlv (by rfl)
      have hrec := dlFields m2 ms2 f lvl ws rest hws hlm
      have hv2 : parseVal f (' ' :: (printJson lvl v ++
          (',' :: (printMembers lvl m2 ms2 ++ '\n' :: (ws ++ '}' :: rest))))) =
          some (v, ',' :: (printMembers lvl m2 ms2 ++ '\n' :: (ws ++ '}' :: rest))) := by
        rw [show (' ' :: (printJson lvl v ++ (',' :: (printMembers lvl m2 ms2 ++
            '\n' :: (ws ++ '}' :: rest))))) =
            [' '] ++ (printJson lvl v ++ (',' :: (printMembers lvl m2 ms2 ++
              '\n' :: (ws ++ '}' :: rest)))) from rfl,
          parseVal_wsPre [' '] (by intro c hc; simp at hc; rw [hc]; rfl) f _, hv]
      have hsb := strBody_escStr k.data
        (':' :: ' ' :: (printJson lvl v ++
          (',' :: (printMembers lvl m2 ms2 ++ '\n' :: (ws ++ '}' :: rest)))))
      have hdw1 : dropWs (':' :: ' ' :: (printJson lvl v ++
          (',' :: (printMembers lvl m2 ms2 ++ '\n' :: (ws ++ '}' :: rest))))) =
          ':' :: ' ' :: (printJson lvl v ++
            (',' :: (printMembers lvl m2 ms2 ++ '\n' :: (ws ++ '}' :: rest)))) :=
        dropWs_noWs _ _ (by decide)
      have hdw2 : dropWs (',' :: (printMembers lvl m2 ms2 ++ '\n' :: (ws ++ '}' :: rest))) =
          ',' :: (printMembers lvl m2 ms2 ++ '\n' :: (ws ++ '}' :: rest)) :=
        dropWs_noWs _ _ (by decide)
      simp only [parseFields]
      rw [printMembers, List.append_assoc, dropWs_member]
      simp [hsb, hdw1, hv2, hdw2, hrec, strMk_data]
termination_by m ms _ _ _ _ => sizeOf m + sizeOf ms
decreasing_by all_goals (simp_wf <;> omega)

end

/-- The serializer/parser round-trip on every modelled JSON value. -/
theorem pyJson_roundTrip (j : Json) : pyJsonLoads (pyJsonDump j) = some j := by
  have h := dlVal j ((printJson 0 j).length + 1) 0 [] (by omega) rfl
  rw [List.append_nil] at h
  simp only [pyJsonLoads]
  rw [show (pyJsonDump j).data = printJson 0 j from rfl, h]
  simp [dropWs]

theorem doWrites_lookup (ws : List (String × String)) (t : FileTree) (q : String) :
    doWrites ws t q =
      match lastWrite q ws with
      | some c => some c
      | none => t q := by
  induction ws generalizing t with
  | nil => rfl
  | cons w ws ih =>
    obtain ⟨p, c⟩ := w
    rw [doWrites, ih, lastWrite]
    cases lastWrite q ws with
    | some c2 => rfl
    | none =>
      simp only [doWrite]
      by_cases hq : q = p
      · simp [hq]
      · simp [hq]

/-- Replaying an identical write list changes nothing. -/
theorem doWrites_idem (ws : List (String × String)) (t : FileTree) :
    doWrites ws (doWrites ws t) = doWrites ws t := by
  funext q
  rw [doWrites_lookup, doWrites_lookup]
  cases lastWrite q ws <;> rfl

theorem strData_append (a b : String) : (a ++ b).data = a.data ++ b.data := rfl

theorem safeStr_append (a b : String) :
    safeStr (a ++ b) = (safeStr a && safeStr b) := by
  simp [safeStr, strData_append, List.all_append]

theorem safeStr_joinAll : ∀ l : List String,
    (∀ s ∈ l, safeStr s = true) → safeStr (joinAll l) = true
  | [], _ => rfl
  | s :: rest, h => by
    rw [joinAll, safeStr_append, h s (by simp),
      safeStr_joinAll rest (fun x hx => h x (by simp [hx]))]
    rfl

theorem safeStr_joinSep : ∀ l : List String,
    (∀ s ∈ l, safeStr s = true) → safeStr (joinSep " " l) = true
  | [], _ => rfl
  | [s], h => by
    rw [show joinSep " " [s] = s from rfl]
    exact h s (by simp)
  | s :: s2 :: rest, h => by
    rw [show joinSep " " (s :: s2 :: rest) = s ++ " " ++ joinSep " " (s2 :: rest) from rfl,
      safeStr_append, safeStr_append, h s (by simp),
      safeStr_joinSep (s2 :: rest) (fun x hx => h x (by simp [hx]))]
    rfl

/-- Sorting does not change emptiness. -/
theorem isEmpty_pySorted (l : List String) :
    (pySorted l).isEmpty = l.isEmpty := by
  rcases l with _ | ⟨a, t⟩
  · rfl
  · have h : (pySorted (a :: t)).length = (a :: t).length :=
      (List.perm_insertionSort pyLe (a :: t)).length_eq
    rcases hp : pySorted (a :: t) with _ | ⟨b, u⟩
    · rw [hp] at h; simp at h
    · rfl

/-! ## The claims -/

/-- C1 (counterexample): the claim says the sub-type folder is everything
after the FIRST `" — "` (underscored and sanitized), but on a type line with
two separators — as double-faced cards have — `split(" — ")[1]` yields only
the text between the first and second separator: for a record with
`type_line` `"A — B — C"` the code computes `"B"`, while the claim demands
`"B_—_C"`. -/
theorem claim_C1_counterexample :
    subFolderOf (Json.obj [("type_line", Json.str "A — B — C")]) = some "B" ∧
    String.mk (sanitize (underscoreSpaces (afterFirstSep "A — B — C".data))) =
      "B_—_C" ∧
    ("B" : String) ≠ "B_—_C" := by
  refine ⟨by decide, by decide, by decide⟩

/-- Characterization of the sub-type folder shared by C1 and C10. -/
theorem subFolder_eq (card : Json) (tl : String) (htl : typeLineOf card = some tl) :
    subFolderOf card =
      some (if containsSub tl.data dashSep then
          String.mk (sanitize (underscoreSpaces (beforeSep (afterFirstSep tl.data))))
        else "No_Subtype") := by
  rw [subFolderOf, htl]
  by_cases hc : containsSub tl.data dashSep
  · simp only [Option.bind_eq_bind, Option.some_bind, if_pos hc,
      splitDash_get1 tl.data hc]
  · simp only [Option.bind_eq_bind, Option.some_bind, if_neg hc]

/-- C1 (amended): for every record whose `type_line` contains `" — "`, the
sub-type folder is the sanitized, underscore-joined text strictly between the
first and the second occurrence of the separator (everything after the first
occurrence when it is the only one); when the separator is absent (including
a missing `type_line`, treated as empty) the folder is exactly
`"No_Subtype"`. -/
theorem claim_C1 (card : Json) (tl : String) (htl : typeLineOf card = some tl) :
    subFolderOf card =
      some (if containsSub tl.data dashSep then
          String.mk (sanitize (underscoreSpaces (beforeSep (afterFirstSep tl.data))))
        else "No_Subtype") :=
  subFolder_eq card tl htl

/-- C1 (amended, witness): the single-separator and no-separator cases at
concrete records. -/
theorem claim_C1_witness :
    (typeLineOf (Json.obj [("type_line", Json.str "Creature — Dragon")]) =
        some "Creature — Dragon" ∧
      subFolderOf (Json.obj [("type_line", Json.str "Creature — Dragon")]) =
        some (if containsSub "Creature — Dragon".data dashSep then
            String.mk (sanitize (underscoreSpaces
              (beforeSep (afterFirstSep "Creature — Dragon".data))))
          else "No_Subtype")) ∧
    subFolderOf (Json.obj [("type_line", Json.str "Creature — Dragon")]) =
      some "Dragon" := by
  refine ⟨⟨rfl, claim_C1 _ "Creature — Dragon" rfl⟩, by decide⟩

/-- C10: whenever the guard of line 36 holds — the separator `" — "` occurs
in the type line — `split(" — ")` has at least two parts, the index-1 access
of line 37 is in bounds, and the sub-type computation cannot raise. -/
theorem claim_C10 (card : Json) (tl : String) (htl : typeLineOf card = some tl)
    (hc : containsSub tl.data dashSep = true) :
    2 ≤ (splitDash tl.data).length ∧
    ((splitDash tl.data).get? 1).isSome = true ∧
    (subFolderOf card).isSome = true := by
  refine ⟨splitDash_length_ge_two tl.data hc, ?_, ?_⟩
  · rw [splitDash_get1 tl.data hc]; rfl
  · rw [subFolder_eq card tl htl]; rfl

/-- C10 (witness): the guard holds on `"Basic Land — Plains"`, and the
index-1 access is in bounds there. -/
theorem claim_C10_witness :
    typeLineOf (Json.obj [("type_line", Json.str "Basic Land — Plains")]) =
      some "Basic Land — Plains" ∧
    containsSub "Basic Land — Plains".data dashSep = true ∧
    (2 ≤ (splitDash "Basic Land — Plains".data).length ∧
      ((splitDash "Basic Land — Plains".data).get? 1).isSome = true ∧
      (subFolderOf (Json.obj [("type_line", Json.str "Basic Land — Plains")])).isSome =
        true) :=
  ⟨rfl, by decide, claim_C10 _ "Basic Land — Plains" rfl (by decide)⟩

/-- C5: for every record, the super-type folder is built from the names of
the fixed ordered vocabulary {Basic, Legendary, Snow, World, Ongoing, Elite}
that occur as substrings of the type line (absent `type_line` treated as
empty), kept in the fixed list's order (the found list is a sublist of the
vocabulary) and joined by single spaces; when none occurs, it is exactly
`"Normal"`. -/
theorem claim_C5 (card : Json) (tl : String) (htl : typeLineOf card = some tl) :
    ∃ L, superFolderOf card =
        some (if L.isEmpty then "Normal" else joinSep " " L) ∧
      L.Sublist superTypeList ∧
      (∀ s, s ∈ L ↔ s ∈ superTypeList ∧ containsSub tl.data s.data = true) := by
  refine ⟨superTypeList.filter (fun s => containsSub tl.data s.data), ?_,
    List.filter_sublist _, ?_⟩
  · rw [superFolderOf, htl]
    rfl
  · intro s
    rw [List.mem_filter]

/-- C5 (witness): a type line with two super-type names appearing in
type-line order opposite to the vocabulary order; the folder keeps the
vocabulary order. -/
theorem claim_C5_witness :
    (typeLineOf (Json.obj [("type_line", Json.str "Snow Legendary Creature")]) =
        some "Snow Legendary Creature" ∧
      ∃ L, superFolderOf (Json.obj [("type_line", Json.str "Snow Legendary Creature")]) =
          some (if L.isEmpty then "Normal" else joinSep " " L) ∧
        L.Sublist superTypeList ∧
        (∀ s, s ∈ L ↔ s ∈ superTypeList ∧
          containsSub "Snow Legendary Creature".data s.data = true)) ∧
    superFolderOf (Json.obj [("type_line", Json.str "Snow Legendary Creature")]) =
      some "Legendary Snow" :=
  ⟨⟨rfl, claim_C5 _ "Snow Legendary Creature" rfl⟩, by decide⟩

/-- C7: when the input file does not exist, the entry point reports a
human-readable error and returns: no directory is created, no file is
written, no record is processed, and no exception propagates (the run ends
normally, not aborted). -/
theorem claim_C7 (input_file output_root : String) :
    organizeData input_file none output_root =
      { reported := some ("Error: " ++ input_file ++
          " not found. Please ensure it is in the root directory."),
        dirs := [], writes := [], aborted := false } := rfl

/-- C9: rerunning the whole process on the same input produces the identical
output file tree: replaying the run's writes over the tree the first run
left (starting from any initial tree, in particular the empty one) changes
nothing, because every record's destination path and serialized content are
deterministic functions of the record. -/
theorem claim_C9 (root : String) (cards : List Json) (t : FileTree) :
    runTree root cards (runTree root cards t) = runTree root cards t := by
  unfold runTree
  exact doWrites_idem _ _

/-- C2 (counterexample): the claim says the letters of a non-empty `colors`
list are deduplicated as by a set, but line 25 sorts and joins the list as
given — deduplication happens only on the `card_faces` branch.  A record
with `colors = ["R", "R"]` gets folder `"RR"`, not the deduplicated `"R"`. -/
theorem claim_C2_counterexample :
    colorFolderOf (Json.obj [("colors", Json.arr [Json.str "R", Json.str "R"])]) =
      some "RR" ∧
    joinAll (pySorted (["R", "R"].dedup)) = "R" ∧
    ("RR" : String) ≠ "R" := by
  refine ⟨by decide, by decide, by decide⟩

/-- C2 (amended): for every record with a non-empty (string-list) `colors`
value, the color folder is the concatenation of a lexicographically sorted
permutation of that list — duplicates preserved, no deduplication. -/
theorem claim_C2 (card : Json) (cl : List String)
    (hcl : colorsListOf card = some cl) (hne : cl ≠ []) :
    ∃ L, colorFolderOf card = some (joinAll L) ∧ L.Perm cl ∧
      L.Sorted pyLe := by
  obtain ⟨c0, cs, rfl⟩ : ∃ c0 cs, cl = c0 :: cs := by
    cases cl with
    | nil => exact absurd rfl hne
    | cons c0 cs => exact ⟨c0, cs, rfl⟩
  refine ⟨pySorted (c0 :: cs), ?_, List.perm_insertionSort _ _,
    List.sorted_insertionSort _ _⟩
  rw [colorFolderOf, hcl]
  simp

/-- C2 (amended, witness): an unsorted two-color list comes out sorted and
concatenated. -/
theorem claim_C2_witness :
    (colorsListOf (Json.obj [("colors", Json.arr [Json.str "U", Json.str "R"])]) =
        some ["U", "R"] ∧
      (["U", "R"] : List String) ≠ [] ∧
      ∃ L, colorFolderOf (Json.obj [("colors", Json.arr [Json.str "U", Json.str "R"])]) =
          some (joinAll L) ∧ L.Perm ["U", "R"] ∧ L.Sorted pyLe) ∧
    colorFolderOf (Json.obj [("colors", Json.arr [Json.str "U", Json.str "R"])]) =
      some "RU" :=
  ⟨⟨rfl, by decide, claim_C2 _ ["U", "R"] rfl (by decide)⟩, by decide⟩

/-- C4: for every record whose `colors` list is empty and which carries a
`card_faces` list (of records whose `colors` are string lists), the color
folder is the concatenation of a sorted, duplicate-free list containing
exactly the union of the faces' colors (`"Colorless"` when that union is
empty); and for every record with empty `colors` and no `card_faces` key at
all, the color folder is exactly `"Colorless"`. -/
theorem claim_C4 :
    (∀ (card : Json) (faces : List Json) (colLists : List (List String)),
      colorsListOf card = some [] →
      dictGet card "card_faces" = some (some (Json.arr faces)) →
      faces.mapM colorsListOf = some colLists →
      ∃ L, colorFolderOf card =
          some (if L.isEmpty then "Colorless" else joinAll L) ∧
        L.Sorted pyLe ∧ L.Nodup ∧
        (∀ s, s ∈ L ↔ ∃ l ∈ colLists, s ∈ l)) ∧
    (∀ card : Json, colorsListOf card = some [] →
      hasKey card "card_faces" = false →
      colorFolderOf card = some "Colorless") := by
  constructor
  · intro card faces colLists hcl hfk hmap
    have hobj : hasKey card "card_faces" = true := by
      cases card <;> simp [dictGet] at hfk
      rename_i kvs
      show (List.lookup "card_faces" kvs).isSome = true
      rw [hfk]
      rfl
    refine ⟨pySorted colLists.flatten.dedup, ?_,
      List.sorted_insertionSort _ _,
      ((List.perm_insertionSort _ _).nodup_iff).mpr (List.nodup_dedup _), ?_⟩
    · rw [colorFolderOf, hcl]
      rw [show faceColorsOf card = some colLists.flatten.dedup from by
        rw [faceColorsOf, hfk]
        show Option.map (fun ls => ls.flatten.dedup) (faces.mapM colorsListOf) =
          some colLists.flatten.dedup
        rw [hmap]
        rfl]
      simp [hobj, isEmpty_pySorted]
    · intro s
      have hp : s ∈ pySorted colLists.flatten.dedup ↔ s ∈ colLists.flatten.dedup :=
        (List.perm_insertionSort pyLe _).mem_iff
      rw [hp, List.mem_dedup, List.mem_flatten]
  · intro card hcl hnk
    rw [colorFolderOf, hcl]
    simp [hnk]

/-- C4 (witness): a double-faced record whose faces carry `["U"]` and
`["R"]`, and a record with no colors and no faces. -/
theorem claim_C4_witness :
    (colorsListOf (Json.obj [("colors", Json.arr []),
        ("card_faces", Json.arr [Json.obj [("colors", Json.arr [Json.str "U"])],
          Json.obj [("colors", Json.arr [Json.str "R"])]])]) = some [] ∧
      (∃ L, colorFolderOf (Json.obj [("colors", Json.arr []),
          ("card_faces", Json.arr [Json.obj [("colors", Json.arr [Json.str "U"])],
            Json.obj [("colors", Json.arr [Json.str "R"])]])]) =
          some (if L.isEmpty then "Colorless" else joinAll L) ∧
        L.Sorted pyLe ∧ L.Nodup ∧
        (∀ s, s ∈ L ↔ ∃ l ∈ [["U"], ["R"]], s ∈ l))) ∧
    colorFolderOf (Json.obj [("name", Json.str "X")]) = some "Colorless" := by
  refine ⟨⟨rfl, claim_C4.1 _
    [Json.obj [("colors", Json.arr [Json.str "U"])],
      Json.obj [("colors", Json.arr [Json.str "R"])]]
    [["U"], ["R"]] rfl rfl rfl⟩, claim_C4.2 _ rfl rfl⟩

/-- Safety of the color-folder result for a safe letter list. -/
theorem safe_colorResult (cl2 : List String) (h : ∀ s ∈ cl2, safeStr s = true) :
    safeStr (if cl2.isEmpty then "Colorless" else joinAll (pySorted cl2)) = true := by
  by_cases he : cl2.isEmpty
  · rw [if_pos he]; decide
  · rw [if_neg he]
    exact safeStr_joinAll _
      (fun s hs => h s (((List.perm_insertionSort pyLe cl2).mem_iff).mp hs))

/-- C3 (counterexample): the claim asserts that the color-folder segment can
never contain a filesystem-illegal character for any record, but the color
letters come unvalidated from the input: a record with `colors = [":"]` gets
color folder `":"`. -/
theorem claim_C3_counterexample :
    colorFolderOf (Json.obj [("colors", Json.arr [Json.str ":"])]) = some ":" ∧
    (":" : String).data.any illegalCh = true := by
  refine ⟨by decide, by decide⟩

/-- C3 (amended): for every record, the super-type folder contains no
filesystem-illegal character (it is built from the fixed safe vocabulary or
is `"Normal"`), with no condition on the record's colors; the color folder
contains none only provided every color letter the record supplies (in
`colors` or in its faces' colors) is itself free of them — as the enumerated
letters W, U, B, R, G are. -/
theorem claim_C3 (card : Json) (sf : String)
    (hsf : superFolderOf card = some sf) :
    safeStr sf = true ∧
    (∀ cf, colorFolderOf card = some cf →
      (∀ l, (colorsListOf card = some l ∨ faceColorsOf card = some l) →
        ∀ s ∈ l, safeStr s = true) →
      safeStr cf = true) := by
  constructor
  · cases htl : typeLineOf card with
    | none => rw [superFolderOf, htl] at hsf; exact Option.noConfusion hsf
    | some tl =>
      rw [superFolderOf, htl] at hsf
      simp only [Option.bind_eq_bind, Option.some_bind, Option.some.injEq] at hsf
      subst hsf
      by_cases he : (superTypeList.filter
          (fun s => containsSub tl.data s.data)).isEmpty
      · rw [if_pos he]; decide
      · rw [if_neg he]
        refine safeStr_joinSep _ (fun s hs => ?_)
        have hall : ∀ x ∈ superTypeList, safeStr x = true := by decide
        exact hall s (List.mem_filter.mp hs).1
  · intro cf hcf hsafe
    cases hclo : colorsListOf card with
    | none => rw [colorFolderOf, hclo] at hcf; exact Option.noConfusion hcf
    | some cl =>
      rw [colorFolderOf, hclo] at hcf
      simp only [Option.bind_eq_bind, Option.some_bind] at hcf
      by_cases hcond : cl.isEmpty = true ∧ hasKey card "card_faces" = true
      · rw [if_pos hcond] at hcf
        cases hfc : faceColorsOf card with
        | none => rw [hfc] at hcf; exact Option.noConfusion hcf
        | some fcl =>
          rw [hfc] at hcf
          simp only [Option.some_bind, Option.some.injEq] at hcf
          subst hcf
          exact safe_colorResult fcl (hsafe fcl (Or.inr hfc))
      · rw [if_neg hcond] at hcf
        simp only [Option.some_bind, Option.some.injEq] at hcf
        subst hcf
        exact safe_colorResult cl (hsafe cl (Or.inl hclo))

/-- C3 (amended, witness): a two-color legendary creature. -/
theorem claim_C3_witness :
    (superFolderOf (Json.obj [("colors", Json.arr [Json.str "R", Json.str "G"]),
        ("type_line", Json.str "Legendary Creature — Dragon")]) =
      some "Legendary" ∧
    colorFolderOf (Json.obj [("colors", Json.arr [Json.str "R", Json.str "G"]),
        ("type_line", Json.str "Legendary Creature — Dragon")]) =
      some "GR") ∧
    (safeStr "Legendary" = true ∧ safeStr "GR" = true) := by
  have h := claim_C3 (Json.obj [("colors", Json.arr [Json.str "R", Json.str "G"]),
      ("type_line", Json.str "Legendary Creature — Dragon")])
    "Legendary" (by decide)
  refine ⟨⟨by decide, by decide⟩, h.1, h.2 "GR" (by decide) ?_⟩
  intro l hl
  rcases hl with hl | hl
  · injection hl with h2
    subst h2
    decide
  · exact Option.noConfusion hl

/-- C6: the sanitizer removes exactly every occurrence of the nine
characters `\ / * ? : " < > |` and leaves every other character unchanged in
place and order (it is the filter keeping exactly the characters outside
that nine-character set); in particular a record named `"Kix <Test>"` is
written under the file name `"Kix Test.json"`. -/
theorem claim_C6 :
    (∀ s : String, sanitize_name s =
      String.mk (s.data.filter (fun c => decide (c ∉ nineIllegal)))) ∧
    fullFileName (Json.obj [("name", Json.str "Kix <Test>")]) =
      some "Kix Test.json" := by
  constructor
  · intro s
    rw [sanitize_name]
    congr 1
    rw [sanitize]
    refine List.filter_congr (fun c _ => ?_)
    by_cases hc : c ∈ nineIllegal
    · have h1 : illegalCh c = true := by fin_cases hc <;> rfl
      simp [h1, hc]
    · have h1 : illegalCh c = false := by
        by_contra h
        rw [Bool.not_eq_false] at h
        simp only [illegalCh, Bool.or_eq_true, decide_eq_true_eq] at h
        rcases h with ((((((((h | h) | h) | h) | h) | h) | h) | h) | h) <;>
          (subst h; simp [nineIllegal] at hc)
      simp [h1, hc]
  · decide

/-- C8: every file content the run writes, parsed back as JSON, is
deep-equal to the source record it was written for. -/
theorem claim_C8 (root : String) (cards : List Json) (p content : String)
    (hmem : (p, content) ∈ (processCards root cards).2.1) :
    ∃ card, card ∈ cards ∧ content = pyJsonDump card ∧
      pyJsonLoads content = some card := by
  induction cards with
  | nil => simp [processCards] at hmem
  | cons c cs ih =>
    rw [processCards] at hmem
    cases ht : targetDirOf root c with
    | none => rw [ht] at hmem; simp at hmem
    | some dir =>
      rw [ht] at hmem
      cases hn : cardNameOf c with
      | none => rw [hn] at hmem; simp at hmem
      | some nm =>
        rw [hn] at hmem
        simp only [List.mem_cons] at hmem
        rcases hmem with hmem | hmem
        · have hcontent : content = pyJsonDump c := congrArg Prod.snd hmem
          exact ⟨c, by simp, hcontent, by rw [hcontent, pyJson_roundTrip]⟩
        · obtain ⟨card, hc1, hc2, hc3⟩ := ih hmem
          exact ⟨card, by simp [hc1], hc2, hc3⟩

/-- C8 (witness): a one-record run; its single write round-trips. -/
theorem claim_C8_witness :
    ∃ card, card ∈ [Json.obj [("name", Json.str "A")]] ∧
      pyJsonDump (Json.obj [("name", Json.str "A")]) = pyJsonDump card ∧
      pyJsonLoads (pyJsonDump (Json.obj [("name", Json.str "A")])) = some card :=
  claim_C8 "out" [Json.obj [("name", Json.str "A")]]
    "out/Colorless/Normal/No_Subtype/A.json"
    (pyJsonDump (Json.obj [("name", Json.str "A")]))
    (List.Mem.head _)
